import Mathlib

/-!
Verification of the Mueller-matrix dual-channel polarimeter programs
(`manual_mm.py`, `astropy_mm.py`, `final_offline_mm.py`).

The Python floating-point computations are embedded over the exact reals:
`math.cos`/`np.cos` become `Real.cos`, matrices become `Matrix (Fin 4) (Fin 4) ℝ`,
and the partial operation `numpy.linalg.inv` (which raises `LinAlgError` on a
singular matrix) is modelled by an `Option`-valued guard on the determinant.
-/

open Real Matrix

noncomputable section

open Classical

/-- Embeds `m(theta, phi)` of `manual_mm.py` (lines 17-20): the generic Mueller
matrix used for the two Wollaston beams.  Note the source's entry in row 3,
column 2 is `-sin(2*theta)*sin(theta)` (with `sin(theta)`, not `sin(phi)`),
reproduced here exactly as written. -/
def m (theta phi : ℝ) : Matrix (Fin 4) (Fin 4) ℝ :=
  !![1, -Real.cos (2 * theta), 0, 0;
     -Real.cos (2 * theta), 1, 0, 0;
     0, 0, Real.sin (2 * theta) * Real.cos phi, Real.sin (2 * theta) * Real.sin phi;
     0, 0, -(Real.sin (2 * theta) * Real.sin theta), Real.sin (2 * theta) * Real.cos phi]

/-- Embeds `t(angle)` of `manual_mm.py` (lines 24-26): the rotation matrix,
with `4 * angle` inside the trigonometric terms. -/
def t (angle : ℝ) : Matrix (Fin 4) (Fin 4) ℝ :=
  !![1, 0, 0, 0;
     0, Real.cos (4 * angle), Real.sin (4 * angle), 0;
     0, -Real.sin (4 * angle), Real.cos (4 * angle), 0;
     0, 0, 0, 1]

/-- Embeds `m_woll_pos = m(math.pi / 2, 0)` (`manual_mm.py` line 30). -/
def m_woll_pos : Matrix (Fin 4) (Fin 4) ℝ := m (Real.pi / 2) 0

/-- Embeds `m_woll_neg = m(math.pi, 0)` (`manual_mm.py` line 31). -/
def m_woll_neg : Matrix (Fin 4) (Fin 4) ℝ := m Real.pi 0

/-- Embeds `wollaston(stokes)` of `manual_mm.py` (lines 35-39): the pair
`(0.5 * m_woll_pos @ stokes, 0.5 * m_woll_neg @ stokes)`. -/
def wollaston (stokes : Fin 4 → ℝ) : (Fin 4 → ℝ) × (Fin 4 → ℝ) :=
  ((0.5 : ℝ) • (m_woll_pos *ᵥ stokes), (0.5 : ℝ) • (m_woll_neg *ᵥ stokes))

/-- One entry of the `values` list fed to `on_sky`: the two measured beam
intensities and the HWP and parallactic angles (`values[j][0..3]`). -/
structure Sample where
  I1 : ℝ
  I2 : ℝ
  hwp : ℝ
  pa : ℝ

/-- Out-of-range default for list indexing (the Python loops only ever access
in-range indices, so the default value is never reached). -/
def dummySample : Sample := ⟨0, 0, 0, 0⟩

/-- Embeds `row1[0]` of `on_sky` (`manual_mm.py` line 74): the first row of
`0.5 * (m_woll_pos @ t(hwp) @ t(sky))`. -/
def rowPos (hwp sky : ℝ) : Fin 4 → ℝ :=
  fun k => ((0.5 : ℝ) • (m_woll_pos * t hwp * t sky)) 0 k

/-- Embeds `row2[0]` of `on_sky` (`manual_mm.py` line 75): the first row of
`0.5 * (m_woll_neg @ t(hwp) @ t(sky))`. -/
def rowNeg (hwp sky : ℝ) : Fin 4 → ℝ :=
  fun k => ((0.5 : ℝ) • (m_woll_neg * t hwp * t sky)) 0 k

/-- The design matrix `m_system` accumulated by the loop of `on_sky`
(`manual_mm.py` lines 71-79): two rows per sample, the positive-beam row then
the negative-beam row. -/
def design (vs : List Sample) : Matrix (Fin (2 * vs.length)) (Fin 4) ℝ :=
  Matrix.of fun i k =>
    if i.val % 2 = 0 then
      rowPos (vs.getD (i.val / 2) dummySample).hwp (vs.getD (i.val / 2) dummySample).pa k
    else
      rowNeg (vs.getD (i.val / 2) dummySample).hwp (vs.getD (i.val / 2) dummySample).pa k

/-- The intensity column `i` accumulated by the loop of `on_sky`
(`manual_mm.py` lines 76, 78): `values[j][0]` then `values[j][1]` per sample. -/
def bvec (vs : List Sample) : Fin (2 * vs.length) → ℝ :=
  fun i =>
    if i.val % 2 = 0 then (vs.getD (i.val / 2) dummySample).I1
    else (vs.getD (i.val / 2) dummySample).I2

/-- The normal matrix `np.transpose(m_system) @ m_system` of `on_sky`
(`manual_mm.py` line 82). -/
def normalMat (vs : List Sample) : Matrix (Fin 4) (Fin 4) ℝ :=
  (design vs)ᵀ * design vs

/-- Embeds `on_sky(values)` of `manual_mm.py` (lines 66-82):
`inv(AᵀA) @ Aᵀ @ i`.  `numpy.linalg.inv` raises `LinAlgError` on a singular
matrix; that failure is modelled by returning `none` when the determinant of
the normal matrix is not a unit. -/
def on_sky (vs : List Sample) : Option (Fin 4 → ℝ) :=
  if IsUnit (normalMat vs).det then
    some (((normalMat vs)⁻¹ * (design vs)ᵀ) *ᵥ bvec vs)
  else none

/-- The Wollaston beam selector of the pyMuellerMat variants: the ordinary
beam `o` (paired with the first measured intensity) and the extraordinary
beam `e` (paired with the second). -/
inductive Beam where
  | o
  | e

/-- The Wollaston Mueller matrix selected by a beam: `o` is the positive
matrix, `e` the negative one (`final_offline_mm.py` lines 110-118 pair beam
`'o'` with `values[j][0]` and beam `'e'` with `values[j][1]`). -/
def wollMat : Beam → Matrix (Fin 4) (Fin 4) ℝ
  | Beam.o => m_woll_pos
  | Beam.e => m_woll_neg

/-- The spec's "first-row vector (the linear map from Stokes vector to scalar
intensity)" of the system evaluated with a given beam at given HWP and
parallactic angles. -/
def systemFirstRow (b : Beam) (hwp sky : ℝ) : Fin 4 → ℝ :=
  fun k => ((0.5 : ℝ) • (wollMat b * t hwp * t sky)) 0 k

/-- The spec's design-matrix rows: for each sample, first the `o`-beam row,
then the `e`-beam row, appended in sample order. -/
def specRows : List Sample → List (Fin 4 → ℝ)
  | [] => []
  | v :: tl =>
      systemFirstRow Beam.o v.hwp v.pa :: systemFirstRow Beam.e v.hwp v.pa :: specRows tl

/-- The spec's measured-intensity vector: for each sample, the positive
intensity then the negative intensity, in sample order. -/
def specB : List Sample → List ℝ
  | [] => []
  | v :: tl => v.I1 :: v.I2 :: specB tl

/-- The spec's design matrix `A`, as a matrix indexed like the code's. -/
def specDesign (vs : List Sample) : Matrix (Fin (2 * vs.length)) (Fin 4) ℝ :=
  Matrix.of fun i k => ((specRows vs).getD i.val 0) k

/-- The spec's intensity vector `b`, indexed like the code's. -/
def specBvec (vs : List Sample) : Fin (2 * vs.length) → ℝ :=
  fun i => (specB vs).getD i.val 0

/-- The spec's least-squares solution `(AᵀA)⁻¹ Aᵀ b` built from `specDesign`
and `specBvec`, with the same singularity guard as the code's `inv`. -/
def specSolve (vs : List Sample) : Option (Fin 4 → ℝ) :=
  if IsUnit ((specDesign vs)ᵀ * specDesign vs).det then
    some (((((specDesign vs)ᵀ * specDesign vs))⁻¹ * (specDesign vs)ᵀ) *ᵥ specBvec vs)
  else none

/-- The Stokes vector `[1, 0.1, 0.05, 0]` of the round-trip test. -/
def s0 : Fin 4 → ℝ := ![1, 0.1, 0.05, 0]

/-- Forward-model positive-beam intensity: the first component of
`0.5 * m_woll_pos @ t(hwp) @ t(pa) @ s`. -/
def forwardPos (hwp sky : ℝ) (s : Fin 4 → ℝ) : ℝ :=
  (((0.5 : ℝ) • (m_woll_pos * t hwp * t sky)) *ᵥ s) 0

/-- Forward-model negative-beam intensity: the first component of
`0.5 * m_woll_neg @ t(hwp) @ t(pa) @ s`. -/
def forwardNeg (hwp sky : ℝ) (s : Fin 4 → ℝ) : ℝ :=
  (((0.5 : ℝ) • (m_woll_neg * t hwp * t sky)) *ᵥ s) 0

/-- The round-trip test input: forward-model intensity pairs for `s0` at HWP
angles 0°, 45°, 22.5°, 67.5° (in radians, as `main` converts them before
calling `on_sky`) and parallactic angle 0. -/
def c1Samples : List Sample :=
  [⟨forwardPos 0 0 s0, forwardNeg 0 0 s0, 0, 0⟩,
   ⟨forwardPos (Real.pi / 4) 0 s0, forwardNeg (Real.pi / 4) 0 s0, Real.pi / 4, 0⟩,
   ⟨forwardPos (Real.pi / 8) 0 s0, forwardNeg (Real.pi / 8) 0 s0, Real.pi / 8, 0⟩,
   ⟨forwardPos (3 * Real.pi / 8) 0 s0, forwardNeg (3 * Real.pi / 8) 0 s0, 3 * Real.pi / 8, 0⟩]

/-- Embeds `math.radians` / `np.radians`: degrees to radians. -/
def radiansOfDeg (d : ℝ) : ℝ := d * (Real.pi / 180)

/-- Embeds `math.degrees` / `np.degrees`: radians to degrees. -/
def degreesOfRad (r : ℝ) : ℝ := r * (180 / Real.pi)

/-- The value `main` of `astropy_mm.py` (line 219) / `final_offline_mm.py`
(line 351) stores into `master_property_dict['HalfwaveRetarder']['theta']`
via `on_sky` when the user enters a HWP angle of `d` degrees:
`math.radians(float(input(...)))`. -/
def astropyStoredTheta (d : ℝ) : ℝ := radiansOfDeg d

/-- The value `plot_wollaston` of `astropy_mm.py` (line 52) stores into
`master_property_dict['HalfwaveRetarder']['theta']` for the loop variable
`angle` (which ranges over radians `0 ≤ angle < 2π`): `math.degrees(angle)`. -/
def plotWollastonStoredTheta (angle : ℝ) : ℝ := degreesOfRad angle

/-- Ground-truth derotator diattenuation of `fit_model`
(`final_offline_mm.py` line 227). -/
def derotator_d_i : ℝ := 0.9662

/-- Ground-truth derotator retardance of `fit_model` (line 227). -/
def derotator_r_i : ℝ := 186.6

/-- Ground-truth mirror-3 diattenuation of `fit_model` (line 228). -/
def m3_d_i : ℝ := 0.9761

/-- Ground-truth mirror-3 retardance of `fit_model` (line 228). -/
def m3_r_i : ℝ := 186.6

/-- Embeds the `error` vector of `fit_model` (`final_offline_mm.py` lines
293-295) as a function of the four fitted means: note the second component
divides by the fitted mean `derotator_r_f`, while the other three divide by
the corresponding ground-truth value. -/
def fitErrors (ddf drf mdf mrf : ℝ) : Fin 4 → ℝ :=
  ![|(ddf - derotator_d_i) / derotator_d_i * 100|,
    |(drf - derotator_r_i) / drf * 100|,
    |(mdf - m3_d_i) / m3_d_i * 100|,
    |(mrf - m3_r_i) / m3_r_i * 100|]

/-- The spec's reported quantity: the absolute percent deviation of the mean
estimate from the ground truth, `|(estimate - truth) / truth| * 100`. -/
def specPercentError (estimate truth : ℝ) : ℝ := |(estimate - truth) / truth * 100|

/-- The HWP angle set `hwp = [0, 22.5, 45, 60]` of `fit_model`
(`final_offline_mm.py` line 249). -/
def hwpSet : List ℝ := [0, 22.5, 45, 60]

/-- The catalog polarization fractions `p = [0.0061, 0.0142, 0.0157]`
(`final_offline_mm.py` line 40). -/
def pFracs : List ℝ := [0.0061, 0.0142, 0.0157]

/-- Embeds the `stokes_i[str(theta)]` construction of `fit_model`
(`final_offline_mm.py` lines 262-265): for each catalog fraction `p`, the
vector `[1, p * cos(2 * theta), p * sin(2 * theta), 0]`. -/
def initialStokes (theta : ℝ) : List (Fin 4 → ℝ) :=
  pFracs.map fun p => ![1, p * Real.cos (2 * theta), p * Real.sin (2 * theta), 0]

/-- Modelled from the spec: the pyMuellerMat `WollastonPrism(beam)` element
(missing from `src/`, described in §4.1) — the projection matrix of the
ordinary or extraordinary beam of the polarizing beamsplitter, the two
matrices being complementary for the total intensity. -/
def wollastonPrismMM : Beam → Matrix (Fin 4) (Fin 4) ℝ
  | Beam.o => (0.5 : ℝ) • !![1, 1, 0, 0; 1, 1, 0, 0; 0, 0, 0, 0; 0, 0, 0, 0]
  | Beam.e => (0.5 : ℝ) • !![1, -1, 0, 0; -1, 1, 0, 0; 0, 0, 0, 0; 0, 0, 0, 0]

/-- Modelled from the spec: the pyMuellerMat `HWP()` element (missing from
`src/`, described in §4.1 as the retarder special case `φ = π`), with its
`theta` property supplied in degrees as the astropy-object variants do. -/
def hwpMM (theta : ℝ) : Matrix (Fin 4) (Fin 4) ℝ :=
  let a := radiansOfDeg theta
  !![1, 0, 0, 0;
     0, Real.cos (4 * a), Real.sin (4 * a), 0;
     0, Real.sin (4 * a), -Real.cos (4 * a), 0;
     0, 0, 0, -1]

/-- Modelled from the spec: the pyMuellerMat `Rotator()` element (missing
from `src/`; §4.1 fixes the `4a` convention in the trigonometric terms),
with its `pa` property supplied in degrees. -/
def rotatorMM (pa : ℝ) : Matrix (Fin 4) (Fin 4) ℝ := t (radiansOfDeg pa)

/-- Mueller rotation used to orient a modelled element. -/
def orientMM (a : ℝ) : Matrix (Fin 4) (Fin 4) ℝ :=
  !![1, 0, 0, 0;
     0, Real.cos (2 * a), Real.sin (2 * a), 0;
     0, -Real.sin (2 * a), Real.cos (2 * a), 0;
     0, 0, 0, 1]

/-- Modelled from the spec: the pyMuellerMat `DiattenuatorRetarder()` element
(missing from `src/`, described in §4.1 as combining partial linear
diattenuation `ε` with retardance `φ` at orientation `θ`, used for non-ideal
mirrors/derotators); angles are supplied in degrees. -/
def diattRetMM (theta epsilon phi : ℝ) : Matrix (Fin 4) (Fin 4) ℝ :=
  let th := radiansOfDeg theta
  let ph := radiansOfDeg phi
  orientMM (-th) *
    !![1, epsilon, 0, 0;
       epsilon, 1, 0, 0;
       0, 0, Real.sqrt (1 - epsilon ^ 2) * Real.cos ph, Real.sqrt (1 - epsilon ^ 2) * Real.sin ph;
       0, 0, -(Real.sqrt (1 - epsilon ^ 2) * Real.sin ph), Real.sqrt (1 - epsilon ^ 2) * Real.cos ph] *
    orientMM th

/-- The Keck latitude `np.radians(19.8260)` (`final_offline_mm.py` line 22). -/
def keckLat : ℝ := radiansOfDeg 19.8260

/-- The right ascensions `rad` of the three calibration standards in radians
(`final_offline_mm.py` lines 36-38). -/
def raRad : Fin 3 → ℝ :=
  ![radiansOfDeg (15 * (4 + 14 / 60 + 50.2 / 3600)),
    radiansOfDeg (15 * (4 + 13 / 60 + 47.3 / 3600)),
    radiansOfDeg (15 * (4 + 22 / 60 + 53.3 / 3600))]

/-- The declinations `decd` of the three calibration standards in radians
(`final_offline_mm.py` lines 37-39). -/
def decRad : Fin 3 → ℝ :=
  ![radiansOfDeg (37 + 35 / 60 + 54 / 3600),
    radiansOfDeg (37 + 9 / 60 + 32 / 3600),
    radiansOfDeg (27 + 30 / 60 + 18 / 3600)]

/-- The parallactic angles (degrees) computed in `system`
(`final_offline_mm.py` line 197). -/
def anglesDeg (j : Fin 3) : ℝ :=
  degreesOfRad (Real.arctan (Real.sin (raRad j) /
    (Real.cos (decRad j) * Real.tan keckLat - Real.sin (decRad j) * Real.cos (raRad j))))

/-- The altitudes (degrees) computed in `system`
(`final_offline_mm.py` line 198). -/
def altitudesDeg (j : Fin 3) : ℝ :=
  degreesOfRad (Real.arcsin (Real.sin keckLat * Real.sin (decRad j) +
    Real.cos keckLat * Real.cos (decRad j) * Real.cos (raRad j)))

/-- `np.repeat(angles, 2)` of `system` (`final_offline_mm.py` line 206). -/
def anglesRep : List ℝ :=
  [anglesDeg 0, anglesDeg 0, anglesDeg 1, anglesDeg 1, anglesDeg 2, anglesDeg 2]

/-- `np.repeat(altitudes, 2)` of `system` (`final_offline_mm.py` line 207). -/
def altitudesRep : List ℝ :=
  [altitudesDeg 0, altitudesDeg 0, altitudesDeg 1, altitudesDeg 1, altitudesDeg 2, altitudesDeg 2]

/-- The evaluated `master_sys_mm` of `final_offline_mm.py` (line 29): the
product `WollastonPrism * derotator * HWP * m3 * Rotator` with the derotator
at orientation 0 and mirror 3 at orientation `alt` (as `system` sets them);
element matrices are the spec-modelled pyMuellerMat ones. -/
def masterSysMM (dd dr md mr hwpTheta pa alt : ℝ) (b : Beam) : Matrix (Fin 4) (Fin 4) ℝ :=
  wollastonPrismMM b * diattRetMM 0 dd dr * hwpMM hwpTheta * diattRetMM alt md mr * rotatorMM pa

/-- Embeds `system(x, dd, dr, md, mr)` of `final_offline_mm.py` (lines
194-218): iterate `zip(enumerate(x), angles, altitudes)` (truncating at the
shortest), alternate the Wollaston beam on the parity of the index, and
collect the first component of `master_sys_mm.evaluate() @ stokes`.  The HWP
angle is ambient global state set by `fit_model`, passed here explicitly as
`hwpTheta`. -/
def systemF (hwpTheta : ℝ) (x : List (Fin 4 → ℝ)) (dd dr md mr : ℝ) : List ℝ :=
  ((x.enum).zip (anglesRep.zip altitudesRep)).map fun q =>
    (masterSysMM dd dr md mr hwpTheta q.2.1 q.2.2
        (if q.1.1 % 2 = 0 then Beam.o else Beam.e) *ᵥ q.1.2) 0

theorem rowPos_apply_three (hwp sky : ℝ) : rowPos hwp sky 3 = 0 := by
  simp [rowPos, m_woll_pos, m, t, Matrix.mul_apply, Fin.sum_univ_four]

theorem rowNeg_apply_three (hwp sky : ℝ) : rowNeg hwp sky 3 = 0 := by
  simp [rowNeg, m_woll_neg, m, t, Matrix.mul_apply, Fin.sum_univ_four]

theorem design_apply_three (vs : List Sample) (i : Fin (2 * vs.length)) :
    design vs i 3 = 0 := by
  simp only [design, Matrix.of_apply]
  split
  · exact rowPos_apply_three _ _
  · exact rowNeg_apply_three _ _

theorem normalMat_apply_three (vs : List Sample) (i : Fin 4) :
    normalMat vs i 3 = 0 := by
  simp only [normalMat, Matrix.mul_apply, Matrix.transpose_apply]
  exact Finset.sum_eq_zero fun k _ => by rw [design_apply_three]; ring

theorem normalMat_det_zero (vs : List Sample) : (normalMat vs).det = 0 :=
  Matrix.det_eq_zero_of_column_eq_zero 3 (fun i => normalMat_apply_three vs i)

theorem on_sky_eq_none (vs : List Sample) : on_sky vs = none := by
  rw [on_sky, if_neg]
  rw [normalMat_det_zero]
  exact not_isUnit_zero

theorem specRows_length (vs : List Sample) : (specRows vs).length = 2 * vs.length := by
  induction vs with
  | nil => simp [specRows]
  | cons v tl ih => simp [specRows, ih]; ring

theorem specB_length (vs : List Sample) : (specB vs).length = 2 * vs.length := by
  induction vs with
  | nil => simp [specB]
  | cons v tl ih => simp [specB, ih]; ring

theorem specRows_getD (vs : List Sample) (i : ℕ) (h : i < 2 * vs.length) :
    (specRows vs).getD i 0 =
      if i % 2 = 0 then
        systemFirstRow Beam.o (vs.getD (i / 2) dummySample).hwp (vs.getD (i / 2) dummySample).pa
      else
        systemFirstRow Beam.e (vs.getD (i / 2) dummySample).hwp (vs.getD (i / 2) dummySample).pa := by
  induction vs generalizing i with
  | nil => simp at h
  | cons v tl ih =>
    match i with
    | 0 => simp [specRows]
    | 1 => simp [specRows]
    | (n + 2) =>
      have hn : n < 2 * tl.length := by simp at h; omega
      have hmod : (n + 2) % 2 = n % 2 := Nat.add_mod_right n 2
      have hdiv : (n + 2) / 2 = n / 2 + 1 := Nat.add_div_right n (by norm_num)
      simp only [specRows, List.getD_cons_succ, hmod, hdiv]
      exact ih n hn

theorem specB_getD (vs : List Sample) (i : ℕ) (h : i < 2 * vs.length) :
    (specB vs).getD i 0 =
      if i % 2 = 0 then (vs.getD (i / 2) dummySample).I1
      else (vs.getD (i / 2) dummySample).I2 := by
  induction vs generalizing i with
  | nil => simp at h
  | cons v tl ih =>
    match i with
    | 0 => simp [specB]
    | 1 => simp [specB]
    | (n + 2) =>
      have hn : n < 2 * tl.length := by simp at h; omega
      have hmod : (n + 2) % 2 = n % 2 := Nat.add_mod_right n 2
      have hdiv : (n + 2) / 2 = n / 2 + 1 := Nat.add_div_right n (by norm_num)
      simp only [specB, List.getD_cons_succ, hmod, hdiv]
      exact ih n hn

theorem design_eq_specDesign (vs : List Sample) : design vs = specDesign vs := by
  ext i k
  rw [specDesign, Matrix.of_apply, specRows_getD vs i.val i.isLt]
  rw [design, Matrix.of_apply]
  by_cases hmod : i.val % 2 = 0
  · simp only [hmod, if_pos rfl, if_true]
    rfl
  · simp only [hmod, if_neg hmod, if_false]
    rfl

theorem bvec_eq_specBvec (vs : List Sample) : bvec vs = specBvec vs := by
  funext i
  rw [specBvec, specB_getD vs i.val i.isLt, bvec]

/-- C2: for every non-empty sample list, `on_sky` builds the design matrix
with exactly two rows per sample — the system first row for the `o` beam then
for the `e` beam at that sample's HWP and parallactic angles — and the
intensity vector with the positive then the negative measured intensity in
the same order, and returns the normal-equation solution `(AᵀA)⁻¹ Aᵀ b`
of that system (`numpy.linalg.inv` being partial, the inversion and hence the
return only happen when `AᵀA` is invertible, modelled by the shared
`Option` guard). -/
theorem onSky_matches_normal_equations (vs : List Sample) (_hne : vs ≠ []) :
    design vs = specDesign vs ∧ bvec vs = specBvec vs ∧ on_sky vs = specSolve vs := by
  refine ⟨design_eq_specDesign vs, bvec_eq_specBvec vs, ?_⟩
  rw [on_sky, specSolve, normalMat, design_eq_specDesign vs, bvec_eq_specBvec vs]

/-- Witness for C2 at the one-sample list `[⟨1, 2, 0, 0⟩]`. -/
theorem onSky_matches_normal_equations_witness :
    ([⟨1, 2, 0, 0⟩] : List Sample) ≠ [] ∧
      (design [⟨1, 2, 0, 0⟩] = specDesign [⟨1, 2, 0, 0⟩] ∧
        bvec [⟨1, 2, 0, 0⟩] = specBvec [⟨1, 2, 0, 0⟩] ∧
        on_sky [⟨1, 2, 0, 0⟩] = specSolve [⟨1, 2, 0, 0⟩]) :=
  ⟨by simp, onSky_matches_normal_equations [⟨1, 2, 0, 0⟩] (by simp)⟩

/-- C1: at the spec's own round-trip test input — forward-model intensities
for the Stokes vector `(1, 0.1, 0.05, 0)` at HWP angles 0°, 45°, 22.5°,
67.5° and parallactic angle 0 — the normal matrix `AᵀA` of `on_sky` is
singular (its fourth, `V`, column is identically zero), so `numpy.linalg.inv`
raises `LinAlgError` and `on_sky` does not return the original Stokes vector
(nor any vector at all): the claimed round-trip recovery fails on the code. -/
theorem onSky_roundtrip_test_fails :
    (normalMat c1Samples).det = 0 ∧ on_sky c1Samples = none :=
  ⟨normalMat_det_zero c1Samples, on_sky_eq_none c1Samples⟩

/-- C5: for every input with fewer than 2 samples, and for every input whose
samples all share one HWP angle and one parallactic angle, the normal matrix
`AᵀA` is singular and the solve fails (the inversion raises rather than
returning a Stokes vector, modelled as `none`). -/
theorem onSky_degenerate_singular (vs : List Sample)
    (_h : vs.length < 2 ∨ ∃ h0 p0, ∀ v ∈ vs, v.hwp = h0 ∧ v.pa = p0) :
    (normalMat vs).det = 0 ∧ on_sky vs = none :=
  ⟨normalMat_det_zero vs, on_sky_eq_none vs⟩

/-- Witness for C5 at the one-sample list `[⟨1, 0, 0, 0⟩]`. -/
theorem onSky_degenerate_singular_witness :
    (([⟨1, 0, 0, 0⟩] : List Sample).length < 2 ∨
        ∃ h0 p0, ∀ v ∈ ([⟨1, 0, 0, 0⟩] : List Sample), v.hwp = h0 ∧ v.pa = p0) ∧
      ((normalMat [⟨1, 0, 0, 0⟩]).det = 0 ∧ on_sky [⟨1, 0, 0, 0⟩] = none) :=
  ⟨Or.inl (by simp), onSky_degenerate_singular [⟨1, 0, 0, 0⟩] (Or.inl (by simp))⟩

/-- C3: the rotator matrix `t(a)` is exactly
`[[1,0,0,0],[0,cos 4a,sin 4a,0],[0,-sin 4a,cos 4a,0],[0,0,0,1]]`; in
particular at `a = π/4` its `(1,1)` entry is `cos π = -1`, which differs from
the value `cos(2a) = 0` a `2a` convention would give. -/
theorem rotator_uses_four_times_angle :
    (∀ a : ℝ, t a =
        !![1, 0, 0, 0;
           0, Real.cos (4 * a), Real.sin (4 * a), 0;
           0, -Real.sin (4 * a), Real.cos (4 * a), 0;
           0, 0, 0, 1]) ∧
      t (Real.pi / 4) 1 1 = -1 ∧ t (Real.pi / 4) 1 1 ≠ Real.cos (2 * (Real.pi / 4)) := by
  have h4 : (4 : ℝ) * (Real.pi / 4) = Real.pi := by ring
  have h2 : (2 : ℝ) * (Real.pi / 4) = Real.pi / 2 := by ring
  have hval : t (Real.pi / 4) 1 1 = -1 := by
    simp [t, h4]
  refine ⟨fun a => rfl, hval, ?_⟩
  rw [hval, h2, Real.cos_pi_div_two]
  norm_num

/-- C4: for every Stokes vector, the first components of the two beams
returned by `wollaston` sum exactly to the input intensity `I`. -/
theorem wollaston_beams_sum_to_intensity (s : Fin 4 → ℝ) :
    (wollaston s).1 0 + (wollaston s).2 0 = s 0 := by
  have hpos : (2 : ℝ) * (Real.pi / 2) = Real.pi := by ring
  simp only [wollaston, Pi.smul_apply, smul_eq_mul, Matrix.mulVec, Matrix.dotProduct,
    Fin.sum_univ_four, m_woll_pos, m_woll_neg, m, hpos]
  rw [Real.cos_pi, Real.cos_two_pi]
  norm_num
  ring

/-- C6: the astropy-object variants do NOT supply degrees at every `theta` /
`pa` store: `main` (option b) converts the entered degrees to radians before
they are stored, so entering 45 stores `π/4` (not 45), while
`plot_wollaston` stores degrees (the radian loop value `π` is stored as
180).  This evaluates the two conflicting call sites. -/
theorem astropy_theta_unit_mismatch :
    astropyStoredTheta 45 = Real.pi / 4 ∧ astropyStoredTheta 45 ≠ 45 ∧
      plotWollastonStoredTheta Real.pi = 180 := by
  have hpi4 : astropyStoredTheta 45 = Real.pi / 4 := by
    rw [astropyStoredTheta, radiansOfDeg]; ring
  refine ⟨hpi4, ?_, ?_⟩
  · rw [hpi4]
    intro h
    have hlt := Real.pi_lt_d2
    have : Real.pi = 180 := by linarith
    linarith
  · rw [plotWollastonStoredTheta, degreesOfRad]
    field_simp

/-- C7: the error report of `fit_model` does not use
`|(estimate - truth) / truth| * 100` for all four parameters: the derotator
retardance entry divides by the fitted mean instead of the truth.  At a
fitted mean of 373.2 (truth 186.6) the code reports 50 while the claimed
formula gives 100. -/
theorem fit_error_wrong_denominator :
    fitErrors derotator_d_i 373.2 m3_d_i m3_r_i 1 = 50 ∧
      specPercentError 373.2 derotator_r_i = 100 ∧ (50 : ℝ) ≠ 100 := by
  refine ⟨?_, ?_, by norm_num⟩
  · norm_num [fitErrors, derotator_d_i, derotator_r_i, m3_d_i, m3_r_i, abs_of_nonneg]
  · norm_num [specPercentError, derotator_r_i, abs_of_nonneg]

/-- C8: for every HWP angle in the fitter's set and every vector in the
derived initial Stokes list, the vector is
`(1, p * cos(2θ), p * sin(2θ), 0)` for some catalog polarization fraction
`p` — linear components as cos/sin of twice the HWP angle, circular
component zero. -/
theorem calibration_true_stokes (theta : ℝ) (_htheta : theta ∈ hwpSet) (v : Fin 4 → ℝ)
    (hv : v ∈ initialStokes theta) :
    ∃ p ∈ pFracs, v = ![1, p * Real.cos (2 * theta), p * Real.sin (2 * theta), 0] := by
  rw [initialStokes, List.mem_map] at hv
  obtain ⟨p, hp, rfl⟩ := hv
  exact ⟨p, hp, rfl⟩

/-- Witness for C8 at HWP angle 22.5 and the first catalog target. -/
theorem calibration_true_stokes_witness :
    (22.5 : ℝ) ∈ hwpSet ∧
      (![1, (0.0061 : ℝ) * Real.cos (2 * 22.5), 0.0061 * Real.sin (2 * 22.5), 0] ∈
          initialStokes 22.5) ∧
      ∃ p ∈ pFracs,
        (![1, (0.0061 : ℝ) * Real.cos (2 * 22.5), 0.0061 * Real.sin (2 * 22.5), 0] : Fin 4 → ℝ) =
          ![1, p * Real.cos (2 * (22.5 : ℝ)), p * Real.sin (2 * (22.5 : ℝ)), 0] :=
  ⟨by norm_num [hwpSet], by simp [initialStokes, pFracs],
    calibration_true_stokes 22.5 (by norm_num [hwpSet]) _ (by simp [initialStokes, pFracs])⟩

theorem zip_take_left_eq {α β : Type} (l : List α) (z : List β) :
    l.zip z = (l.take z.length).zip z := by
  induction l generalizing z with
  | nil => simp
  | cons a l ih =>
    cases z with
    | nil => simp
    | cons b z2 => simp [ih]

theorem enumFrom_take_eq {α : Type} (l : List α) (n k : ℕ) :
    (l.take n).enumFrom k = (l.enumFrom k).take n := by
  induction l generalizing n k with
  | nil => simp
  | cons a l ih =>
    cases n with
    | zero => simp
    | succ n2 => simp [List.enumFrom, ih]

theorem enum_take_eq {α : Type} (l : List α) (n : ℕ) :
    (l.take n).enum = l.enum.take n :=
  enumFrom_take_eq l n 0

/-- C10: `system` always returns exactly `min (len x) 6` intensities, and
rows of `x` beyond the sixth never influence the result (truncation to the
first six rows leaves the output unchanged; no error is raised for a length
mismatch). -/
theorem system_output_count (hwpTheta : ℝ) (x : List (Fin 4 → ℝ)) (dd dr md mr : ℝ) :
    (systemF hwpTheta x dd dr md mr).length = min x.length 6 ∧
      systemF hwpTheta x dd dr md mr = systemF hwpTheta (x.take 6) dd dr md mr := by
  have hz : (anglesRep.zip altitudesRep).length = 6 := by
    simp [anglesRep, altitudesRep]
  constructor
  · rw [systemF, List.length_map, List.length_zip, List.enum_length, hz]
  · rw [systemF, systemF]
    have h1 := zip_take_left_eq (x.enum) (anglesRep.zip altitudesRep)
    rw [hz] at h1
    rw [h1, ← enum_take_eq]

/-- C9: in the purely numeric variant, the two beam intensities returned by
`wollaston` for `(I, Q, U, V)` are exactly `0.5 * (I + Q)` and
`0.5 * (I - Q)`, independent of `U` and `V`. -/
theorem wollaston_beam_intensities (i q u v : ℝ) :
    (wollaston ![i, q, u, v]).1 0 = 0.5 * (i + q) ∧
      (wollaston ![i, q, u, v]).2 0 = 0.5 * (i - q) := by
  have hpos : (2 : ℝ) * (Real.pi / 2) = Real.pi := by ring
  refine ⟨?_, ?_⟩ <;>
    simp only [wollaston, Pi.smul_apply, smul_eq_mul, Matrix.mulVec, Matrix.dotProduct,
      Fin.sum_univ_four, m_woll_pos, m_woll_neg, m, hpos, Real.cos_pi, Real.cos_two_pi] <;>
    norm_num <;> ring
